import Mathlib

/-!
Shallow embedding of `src/bot4.py` (a personal contact manager) in Lean 4,
together with theorems settling the specification claims about it.

Python strings are `List Char`; dynamically-typed field values are `PyVal`
(None, a string, or a `datetime.date` object); raised exceptions are
modelled with `Except PyErr` or an explicit `Option PyErr` component where
partial in-place mutation matters.
-/

namespace Bot4

/-- Python strings, modelled as lists of characters. -/
abbrev PyStr := List Char

/-- The dynamically-typed values a `Field` can hold in the program:
`None`, a `str`, or a `datetime.date` object (year, month, day). -/
inductive PyVal where
  | none : PyVal
  | str : PyStr → PyVal
  | pydate : Nat → Nat → Nat → PyVal
deriving DecidableEq, Repr

/-- The exceptions the embedded code can raise. -/
inductive PyErr where
  | valueError : String → PyErr
  | typeError : String → PyErr
  | attributeError : String → PyErr
deriving DecidableEq, Repr

/-- Python truthiness of a field value: `None` and `""` are falsy. -/
def pyTruthy : PyVal → Bool
  | .none => false
  | .str s => !s.isEmpty
  | .pydate _ _ _ => true

/-- Decimal digits of a natural number (most significant first). -/
def natDigits (n : Nat) : PyStr := Nat.toDigits 10 n

/-- Left-pad a string with zeros to width `w`. -/
def padZero (w : Nat) (s : PyStr) : PyStr := List.replicate (w - s.length) '0' ++ s

/-- `str(value)` on a field's stored value: `str(None) = "None"`, a string
renders as itself, a date renders in ISO `YYYY-MM-DD` form. -/
def pyStrOf : PyVal → PyStr
  | .none => 'N' :: 'o' :: 'n' :: 'e' :: []
  | .str s => s
  | .pydate y m d =>
      padZero 4 (natDigits y) ++ '-' :: (padZero 2 (natDigits m) ++ '-' :: padZero 2 (natDigits d))

/-- Python `s.isdigit()` (restricted to ASCII decimal digits): true iff the
string is non-empty and all characters are digits. -/
def pyIsdigit (s : PyStr) : Bool := !s.isEmpty && s.all Char.isDigit

/-- Python `s.lower()` (ASCII). -/
def pyLower (s : PyStr) : PyStr := s.map Char.toLower

/-- `leadsList n h`: the embedding of "string `h` starts with `n`". -/
def leadsList : PyStr → PyStr → Bool
  | [], _ => true
  | _ :: _, [] => false
  | a :: as, b :: bs => a == b && leadsList as bs

/-- Python substring containment `needle in hay`. -/
def pyIn : PyStr → PyStr → Bool
  | n, [] => leadsList n []
  | n, c :: t => leadsList n (c :: t) || pyIn n t

/-- Gregorian leap-year test, as in `datetime`. -/
def isLeap (y : Nat) : Bool := y % 4 == 0 && (y % 100 != 0 || y % 400 == 0)

/-- Number of days in month `m` of year `y` (1-based months). -/
def daysInMonth (y m : Nat) : Nat :=
  if m == 2 then (if isLeap y then 29 else 28)
  else if m == 4 || m == 6 || m == 9 || m == 11 then 30
  else 31

/-- Value of a string of decimal digits. -/
def digitsToNat (s : PyStr) : Nat := s.foldl (fun a c => 10 * a + (c.toNat - '0'.toNat)) 0

/-- `datetime.datetime.strptime(s, '%Y-%m-%d')`, as a partial parse: four
digit year (≥ 1), one/two digit month and day, hyphen-separated, forming a
valid calendar date. Returns the parsed (year, month, day) or `none`. -/
def strptimeYMD (s : PyStr) : Option (Nat × Nat × Nat) :=
  match s.splitOn '-' with
  | [ys, ms, ds] =>
      if ys.length == 4 && ys.all Char.isDigit
          && decide (1 ≤ ms.length) && decide (ms.length ≤ 2) && ms.all Char.isDigit
          && decide (1 ≤ ds.length) && decide (ds.length ≤ 2) && ds.all Char.isDigit then
        let y := digitsToNat ys
        let m := digitsToNat ms
        let d := digitsToNat ds
        if decide (1 ≤ y) && decide (1 ≤ m) && decide (m ≤ 12)
            && decide (1 ≤ d) && decide (d ≤ daysInMonth y m) then
          some (y, m, d)
        else none
      else none
  | _ => none

/-! ## Fields (`Field`, `Name`, `Phone`, `Birthday`) -/

/-- A validated scalar slot: the `Field` base class's single `_value`
attribute. `Name.__init__`, `Phone.__init__` and `Birthday.__init__` all
just store the given value (they call `Field.__init__` and never run
`validate`), so construction is unvalidated in the source. -/
structure Field where
  value : PyVal
deriving DecidableEq, Repr

/-- `Phone.validate`: raises unless the value is `None` or a string of
exactly 10 digits.  The three `if` statements of the source are translated
in order, each raising its own `ValueError`. -/
def phoneValidate : PyVal → Except PyErr Unit
  | .none => .ok ()
  | .str s =>
      if !pyIsdigit s then .error (.valueError "Phone must contain only digits")
      else if s.length != 10 then .error (.valueError "Phone must be 10 digits long")
      else .ok ()
  | .pydate _ _ _ => .error (.typeError "Phone must be a string")

/-- `Birthday.validate`: `None` is accepted; a string must parse under
`strptime('%Y-%m-%d')` or a `ValueError` is raised; a non-string argument
makes `strptime` itself raise a `TypeError` (uncaught by the `except
ValueError` in the source). -/
def birthdayValidate : PyVal → Except PyErr Unit
  | .none => .ok ()
  | .str s =>
      if (strptimeYMD s).isSome then .ok ()
      else .error (.valueError "Invalid date format. Use 'YYYY-MM-DD'")
  | .pydate _ _ _ => .error (.typeError "strptime() argument 1 must be str")

/-- `Field.set_value`: validate first, then store; on a validation error the
old value is untouched (the exception propagates before assignment). -/
def set_value (validate : PyVal → Except PyErr Unit) (_f : Field) (v : PyVal) :
    Except PyErr Field := do
  validate v
  pure ⟨v⟩

/-- `Phone(value)`: `Phone.__init__` only calls `Field.__init__`, storing
the value without validating it. -/
def mkPhone (v : PyVal) : Field := ⟨v⟩

/-- `Birthday(value)`: `Birthday.__init__` only calls `Field.__init__`,
storing the value without validating it. -/
def mkBirthday (v : PyVal) : Field := ⟨v⟩

/-- The `Name` field: any value accepted, no validation.  In the program
every name comes from `input()`, so it is always a string; we type it so. -/
structure Name where
  value : PyStr
deriving DecidableEq, Repr

/-! ## Records -/

/-- `Record`: a name, an ordered list of phone fields, an optional
birthday field. -/
structure Record where
  name : Name
  phones : List Field
  birthday : Field
deriving DecidableEq, Repr

/-- `Record.add_phone`: builds a `Phone` (whose constructor does not
validate) and appends it; it never raises and never leaves the list
unchanged. -/
def add_phone (r : Record) (phone : PyVal) : Record :=
  { r with phones := r.phones ++ [mkPhone phone] }

/-- `Record.__init__(name, phone=None, birthday=None)`: stores the name,
starts with no phones, stores the birthday unvalidated, and, if `phone` is
truthy, adds it via `add_phone`. -/
def mkRecord (name : PyStr) (phone : PyVal) (birthday : PyVal) : Record :=
  let r : Record := ⟨⟨name⟩, [], mkBirthday birthday⟩
  if pyTruthy phone then add_phone r phone else r

/-- `Record.remove_phone`: keep exactly the phone entries whose rendered
string differs from `phone`. -/
def remove_phone (r : Record) (phone : PyStr) : Record :=
  { r with phones := r.phones.filter (fun p => pyStrOf p.value != phone) }

/-- The loop body of `Record.edit_phone` over the phone list: on each entry
rendering equal to `old`, run `set_value new`; a raised `ValueError` aborts
the loop, leaving that entry and the remaining entries as they were
(mutations already performed stay).  Returns the resulting list and the
raised exception, if any. -/
def editGo : List Field → PyStr → PyStr → List Field × Option PyErr
  | [], _, _ => ([], Option.none)
  | p :: rest, old, new =>
      if pyStrOf p.value == old then
        match set_value phoneValidate p (.str new) with
        | .error e => (p :: rest, some e)
        | .ok p' =>
            let (rest', err) := editGo rest old new
            (p' :: rest', err)
      else
        let (rest', err) := editGo rest old new
        (p :: rest', err)

/-- `Record.edit_phone(old, new)`: returns the record after the loop and
the exception that escaped, if any. -/
def edit_phone (r : Record) (old new : PyStr) : Record × Option PyErr :=
  let (ps, err) := editGo r.phones old new
  ({ r with phones := ps }, err)

/-! ## `days_to_birthday` and date arithmetic -/

/-- Attribute access `value.month`: only a `datetime.date` object has it;
on anything else (in particular the `str` the program actually stores)
Python raises `AttributeError`. -/
def dateMonth : PyVal → Except PyErr Nat
  | .pydate _ m _ => .ok m
  | .str _ => .error (.attributeError "str object has no attribute month")
  | .none => .error (.attributeError "NoneType object has no attribute month")

/-- Attribute access `value.day` (see `dateMonth`). -/
def dateDay : PyVal → Except PyErr Nat
  | .pydate _ _ d => .ok d
  | .str _ => .error (.attributeError "str object has no attribute day")
  | .none => .error (.attributeError "NoneType object has no attribute day")

/-- `datetime.date(y, m, d)`: raises `ValueError` on an invalid calendar
date (e.g. Feb 29 of a non-leap year). -/
def pydateNew (y m d : Nat) : Except PyErr (Nat × Nat × Nat) :=
  if decide (1 ≤ y) && decide (1 ≤ m) && decide (m ≤ 12)
      && decide (1 ≤ d) && decide (d ≤ daysInMonth y m) then
    .ok (y, m, d)
  else .error (.valueError "day is out of range for month")

/-- Lexicographic `<` on dates, as `datetime.date.__lt__`. -/
def dateLtB (a b : Nat × Nat × Nat) : Bool :=
  decide (a.1 < b.1) ||
    (a.1 == b.1 && (decide (a.2.1 < b.2.1) || (a.2.1 == b.2.1 && decide (a.2.2 < b.2.2))))

/-- Leap days in years `1..y`. -/
def leapsUpTo (y : Nat) : Nat := y / 4 - y / 100 + y / 400

/-- Days in the months of year `y` strictly before month `m`. -/
def cumDays (y m : Nat) : Nat :=
  (List.range (m - 1)).foldl (fun a i => a + daysInMonth y (i + 1)) 0

/-- Proleptic-Gregorian day number of a date, as `datetime.date.toordinal`;
`(a - b).days` is `toOrdinal a - toOrdinal b`. -/
def toOrdinal : Nat × Nat × Nat → Nat
  | (y, m, d) => 365 * (y - 1) + leapsUpTo (y - 1) + cumDays y m + d

/-- `Record.days_to_birthday`, with `datetime.date.today()` passed in as
`today`.  If the birthday value is falsy the method returns `None`;
otherwise it reads `.month`/`.day` off the stored value (an
`AttributeError` if that value is a string, as it always is in this
program), builds this year's occurrence, moves to next year's when today
is strictly later, and returns the signed day difference. -/
def days_to_birthday (r : Record) (today : Nat × Nat × Nat) : Except PyErr (Option Int) :=
  if pyTruthy r.birthday.value then do
    let bm ← dateMonth r.birthday.value
    let bd ← dateDay r.birthday.value
    let nb ← pydateNew today.1 bm bd
    let nb2 ← if dateLtB nb today then pydateNew (today.1 + 1) bm bd else pure nb
    pure (some ((toOrdinal nb2 : Int) - (toOrdinal today : Int)))
  else pure Option.none

/-! ## The `AddressBook` collection -/

/-- `AddressBook.data`: a Python dict from name string to record, modelled
as an insertion-ordered association list with unique keys. -/
structure AddressBook where
  data : List (PyStr × Record)
deriving DecidableEq, Repr

/-- Python dict assignment `d[k] = v`: if the key is present the value is
replaced in place (key keeps its position); otherwise the pair is appended. -/
def dictInsert (d : List (PyStr × Record)) (k : PyStr) (v : Record) :
    List (PyStr × Record) :=
  if d.any (fun kv => kv.1 == k) then d.map (fun kv => if kv.1 == k then (kv.1, v) else kv)
  else d ++ [(k, v)]

/-- Python dict lookup `d[k]` (first — and only — matching key). -/
def dictGet : List (PyStr × Record) → PyStr → Option Record
  | [], _ => Option.none
  | kv :: rest, k => if kv.1 == k then some kv.2 else dictGet rest k

/-- `AddressBook.add_record`: insert/overwrite under the record's name. -/
def add_record (b : AddressBook) (r : Record) : AddressBook :=
  ⟨dictInsert b.data r.name.value r⟩

/-- `AddressBook.find_records_by_name`: records whose name contains the
query as a case-insensitive substring, in dict value order. -/
def find_records_by_name (b : AddressBook) (name : PyStr) : List Record :=
  (b.data.map Prod.snd).filter (fun r => pyIn (pyLower name) (pyLower r.name.value))

/-- `AddressBook.find_records_by_phone`: records one of whose phones
renders to a string containing the query, in dict value order. -/
def find_records_by_phone (b : AddressBook) (phone : PyStr) : List Record :=
  (b.data.map Prod.snd).filter (fun r => r.phones.any (fun p => pyIn phone (pyStrOf p.value)))

/-- The file system seen by `pickle`/`open`, as a map from path to the
stored address-book data; `pickle.dump`/`pickle.load` round-trip the dict
losslessly, so a file stores the data itself. -/
def FS := PyStr → Option (List (PyStr × Record))

/-- `AddressBook.save_to_file`: overwrite the file at `filename` with the
pickled data. -/
def save_to_file (b : AddressBook) (fs : FS) (filename : PyStr) : FS :=
  fun p => if p = filename then some b.data else fs p

/-- `AddressBook.load_from_file`: replace the data with the unpickled file
content, or with an empty dict when the file is missing. -/
def load_from_file (_b : AddressBook) (fs : FS) (filename : PyStr) : AddressBook :=
  match fs filename with
  | some d => ⟨d⟩
  | Option.none => ⟨[]⟩

/-! ## Pagination (`__iter__` / `__next__`) -/

/-- The iteration state `__iter__` installs on the book: the cursor
`_iter_index` and the key snapshot `_keys` (`_page_size` is always 5). -/
structure BookIter where
  index : Nat
  keys : List PyStr
deriving DecidableEq, Repr

/-- `AddressBook.__iter__` called on a book with no live iteration:
cursor 0, keys = current dict keys. -/
def iterStart (b : AddressBook) : BookIter := ⟨0, b.data.map Prod.fst⟩

/-- `AddressBook.__iter__` called while a previous iteration state exists:
the state is simply overwritten, so the prior cursor is discarded. -/
def iterAgain (b : AddressBook) (_prior : BookIter) : BookIter := iterStart b

/-- One `__next__` page body: `self._keys[i : i + 5]` looked up in the
dict. -/
def pageAt (b : AddressBook) (it : BookIter) : List Record :=
  ((it.keys.drop it.index).take 5).filterMap (dictGet b.data)

/-- Driving `__next__` to `StopIteration`: the list of pages produced from
state `it` (each call advances the cursor by 5). -/
def runPages (b : AddressBook) (it : BookIter) : List (List Record) :=
  if h : it.index < it.keys.length then
    pageAt b it :: runPages b ⟨it.index + 5, it.keys⟩
  else []
termination_by it.keys.length - it.index
decreasing_by simp_wf; omega

/-! ## Claim theorems -/

/-- C1: the claim says constructing a `PhoneField` (directly or via
`addPhone`) fails with a `ValidationError` on a malformed string and
leaves the phone list unchanged.  The code never runs `validate` at
construction: `add_phone "12345"` on a fresh record succeeds and appends
the invalid phone, even though `Phone.validate` itself rejects "12345". -/
theorem claim_C1_add_phone_skips_validation :
    (add_phone (mkRecord "A".toList .none .none) (.str "12345".toList)).phones
        = [⟨.str "12345".toList⟩]
      ∧ phoneValidate (.str "12345".toList)
        = .error (.valueError "Phone must be 10 digits long") := by
  constructor <;> rfl

/-- C2: the claim says a validated field's stored value always satisfies
its validation predicate.  After `Phone("123")` or `Birthday("nonsense")`
the stored value is present and fails the subtype's own `validate`, because
the constructors store the raw value without validating. -/
theorem claim_C2_construction_breaks_invariant :
    (mkPhone (.str "123".toList)).value = .str "123".toList
      ∧ phoneValidate (mkPhone (.str "123".toList)).value
          = .error (.valueError "Phone must be 10 digits long")
      ∧ (mkBirthday (.str "nonsense".toList)).value = .str "nonsense".toList
      ∧ birthdayValidate (mkBirthday (.str "nonsense".toList)).value
          = .error (.valueError "Invalid date format. Use 'YYYY-MM-DD'") := by
  exact ⟨rfl, rfl, rfl, rfl⟩

/-- C3: the claim says `days_to_birthday` returns the day count to the
next occurrence of the stored month/day.  The program stores the birthday
as the raw `YYYY-MM-DD` string (never as a date object), so the attribute
access `self.birthday.value.month` raises `AttributeError` for every
current date whenever a birthday is set — even "1990-05-10", which the
program's own `Birthday.validate` accepts. -/
theorem claim_C3_days_to_birthday_raises (today : Nat × Nat × Nat) :
    days_to_birthday (mkRecord "Anna".toList .none (.str "1990-05-10".toList)) today
        = .error (.attributeError "str object has no attribute month")
      ∧ birthdayValidate (.str "1990-05-10".toList) = .ok () := by
  exact ⟨rfl, rfl⟩

/-- The (name, phone strings, birthday value) tuples of a book, the data
the round-trip claim compares. -/
def tuples (b : AddressBook) : List (PyStr × List PyStr × PyVal) :=
  b.data.map (fun kv =>
    (kv.2.name.value, (kv.2.phones.map (fun p => pyStrOf p.value), kv.2.birthday.value)))

/-- C4: `save_to_file` followed by `load_from_file` on the same path
restores exactly the saved data, so the (name, phones, birthday) tuples
are identical. -/
theorem claim_C4_save_load_roundtrip (b b' : AddressBook) (fs : FS) (path : PyStr) :
    (load_from_file b' (save_to_file b fs path) path).data = b.data
      ∧ tuples (load_from_file b' (save_to_file b fs path) path) = tuples b := by
  have h : load_from_file b' (save_to_file b fs path) path = ⟨b.data⟩ := by
    simp [load_from_file, save_to_file]
  exact ⟨by rw [h], by rw [h]⟩

/-- C7: `remove_phone` removes exactly the entries rendering equal to the
argument (the survivors are a sublist of the original, in order), raises
nothing (it is a total function), and is idempotent. -/
theorem claim_C7_remove_phone_idempotent (r : Record) (phone : PyStr) :
    (∀ p, p ∈ (remove_phone r phone).phones ↔ p ∈ r.phones ∧ pyStrOf p.value ≠ phone)
      ∧ List.Sublist (remove_phone r phone).phones r.phones
      ∧ remove_phone (remove_phone r phone) phone = remove_phone r phone
      ∧ (remove_phone r phone).name = r.name
      ∧ (remove_phone r phone).birthday = r.birthday := by
  refine ⟨fun p => ?_, List.filter_sublist r.phones, ?_, rfl, rfl⟩
  · simp [remove_phone, List.mem_filter]
  · simp only [remove_phone]
    rw [List.filter_filter]
    congr 1
    exact List.filter_congr (fun p _ => Bool.and_self _)

/-- The empty string is a substring of every string (Python `"" in s`). -/
theorem pyIn_nil (h : PyStr) : pyIn [] h = true := by
  induction h with
  | nil => rfl
  | cons c t ih => simp [pyIn, leadsList, ih]

/-- `any` of an always-true predicate says the list is non-empty. -/
theorem any_pyIn_nil (l : List Field) :
    (l.any fun p => pyIn [] (pyStrOf p.value)) = !l.isEmpty := by
  cases l with
  | nil => rfl
  | cons p t => simp [List.any_cons, pyIn_nil]

/-- C10: with the empty query, `find_records_by_name` returns every record
of the book and `find_records_by_phone` returns exactly the records with a
non-empty phone list, both in dict order. -/
theorem claim_C10_empty_query (b : AddressBook) :
    find_records_by_name b [] = b.data.map Prod.snd
      ∧ find_records_by_phone b []
          = (b.data.map Prod.snd).filter (fun r => !r.phones.isEmpty) := by
  constructor
  · simp [find_records_by_name, pyLower, pyIn_nil]
  · simp only [find_records_by_phone]
    exact List.filter_congr (fun r _ => any_pyIn_nil r.phones)

/-- Updating every pair whose key beq-matches `k` rewrites the binding
`dictGet` finds, when some pair matches. -/
theorem dictGet_map_set (d : List (PyStr × Record)) (k : PyStr) (v : Record)
    (h : d.any (fun kv => kv.1 == k) = true) :
    dictGet (d.map (fun kv => if kv.1 == k then (kv.1, v) else kv)) k = some v := by
  induction d with
  | nil => simp at h
  | cons kv rest ih =>
      by_cases hk : (kv.1 == k) = true
      · simp only [List.map_cons, if_pos hk, dictGet]
      · have hrest : rest.any (fun kv => kv.1 == k) = true := by
          rw [List.any_cons] at h
          rcases Bool.or_eq_true_iff.mp h with h1 | h2
          · exact absurd h1 hk
          · exact h2
        simp only [List.map_cons, if_neg hk, dictGet]
        exact ih hrest

/-- Appending a fresh binding at the end is found by `dictGet` when no
existing pair matches the key. -/
theorem dictGet_append_not_found (d : List (PyStr × Record)) (k : PyStr) (v : Record)
    (h : d.any (fun kv => kv.1 == k) = false) :
    dictGet (d ++ [(k, v)]) k = some v := by
  induction d with
  | nil => simp [dictGet]
  | cons kv rest ih =>
      rw [List.any_cons, Bool.or_eq_false_iff] at h
      simp [dictGet, h.1, ih h.2]

/-- Python `d[k] = v` followed by `d[k]` gives back `v`. -/
theorem dictGet_dictInsert_self (d : List (PyStr × Record)) (k : PyStr) (v : Record) :
    dictGet (dictInsert d k v) k = some v := by
  by_cases h : d.any (fun kv => kv.1 == k)
  · rw [dictInsert, if_pos h]
    exact dictGet_map_set d k v h
  · rw [dictInsert, if_neg h]
    exact dictGet_append_not_found d k v (Bool.eq_false_iff.mpr h)

/-- Rewriting the bindings of key `k` does not change lookups of another
key. -/
theorem dictGet_map_set_ne (d : List (PyStr × Record)) (k : PyStr) (v : Record)
    (k' : PyStr) (h : k' ≠ k) :
    dictGet (d.map (fun kv => if kv.1 == k then (kv.1, v) else kv)) k' = dictGet d k' := by
  induction d with
  | nil => rfl
  | cons kv rest ih =>
      by_cases hk : (kv.1 == k) = true
      · have hne : ¬(kv.1 == k') = true := by
          rw [beq_iff_eq] at hk ⊢
          exact hk ▸ fun hcontra => h hcontra.symm
        simp only [List.map_cons, if_pos hk, dictGet]
        rw [if_neg hne, if_neg hne]
        exact ih
      · by_cases hk' : (kv.1 == k') = true
        · simp only [List.map_cons, if_neg hk, dictGet]
          rw [if_pos hk', if_pos hk']
        · simp only [List.map_cons, if_neg hk, dictGet]
          rw [if_neg hk', if_neg hk']
          exact ih

/-- Appending a binding for key `k` does not change lookups of another
key. -/
theorem dictGet_append_ne (d : List (PyStr × Record)) (k : PyStr) (v : Record)
    (k' : PyStr) (h : k' ≠ k) :
    dictGet (d ++ [(k, v)]) k' = dictGet d k' := by
  induction d with
  | nil => simp [dictGet, beq_eq_false_iff_ne.mpr (fun hkk : k = k' => h hkk.symm)]
  | cons kv rest ih =>
      by_cases hk' : (kv.1 == k') = true
      · simp only [List.cons_append, dictGet]
        rw [if_pos hk', if_pos hk']
      · simp only [List.cons_append, dictGet]
        rw [if_neg hk', if_neg hk']
        exact ih

/-- Python `d[k] = v` leaves every other key's lookup unchanged. -/
theorem dictGet_dictInsert_ne (d : List (PyStr × Record)) (k : PyStr) (v : Record)
    (k' : PyStr) (h : k' ≠ k) :
    dictGet (dictInsert d k v) k' = dictGet d k' := by
  by_cases ha : d.any (fun kv => kv.1 == k)
  · rw [dictInsert, if_pos ha]
    exact dictGet_map_set_ne d k v k' h
  · rw [dictInsert, if_neg ha]
    exact dictGet_append_ne d k v k' h

/-- First "Bob" record of the overwrite scenario, phone 1111111111. -/
def bobOne : Record := mkRecord "Bob".toList (.str "1111111111".toList) .none

/-- Second "Bob" record of the overwrite scenario, phone 2222222222. -/
def bobTwo : Record := mkRecord "Bob".toList (.str "2222222222".toList) .none

/-- The book after adding both Bob records in order. -/
def bobBook : AddressBook := add_record (add_record ⟨[]⟩ bobOne) bobTwo

/-- C8: `add_record` binds the record under its name (overwriting any
previous binding) and touches no other key; in the Bob scenario the second
add fully replaces the first record's phone list, so the old phone finds
nothing and the new phone finds the second record. -/
theorem claim_C8_add_record_overwrites (b : AddressBook) (r : Record) (k : PyStr) :
    dictGet (add_record b r).data r.name.value = some r
      ∧ (k ≠ r.name.value → dictGet (add_record b r).data k = dictGet b.data k)
      ∧ find_records_by_phone bobBook "1111111111".toList = []
      ∧ find_records_by_phone bobBook "2222222222".toList = [bobTwo] := by
  exact ⟨dictGet_dictInsert_self b.data r.name.value r,
    fun h => dictGet_dictInsert_ne b.data r.name.value r k h, rfl, rfl⟩

/-- Witness for C8 at concrete inputs: looking up a different name after an
add is unchanged. -/
theorem claim_C8_witness :
    dictGet (add_record ⟨[]⟩ bobOne).data "Eve".toList = dictGet (⟨[]⟩ : AddressBook).data "Eve".toList := by
  exact (claim_C8_add_record_overwrites ⟨[]⟩ bobOne "Eve".toList).2.1 (by decide)

/-- `leadsList` decides the prefix relation. -/
theorem leadsList_iff (n h : PyStr) : leadsList n h = true ↔ n <+: h := by
  induction n generalizing h with
  | nil => simp [leadsList, List.nil_prefix]
  | cons a as ih =>
      cases h with
      | nil => simp [leadsList]
      | cons b bs => simp [leadsList, List.cons_prefix_cons, ih]

/-- `pyIn` (the embedding of Python's `in` on strings) decides the
contiguous-substring relation. -/
theorem pyIn_iff (n h : PyStr) : pyIn n h = true ↔ n <:+: h := by
  induction h with
  | nil =>
      rw [pyIn, leadsList_iff]
      simp
  | cons c t ih =>
      rw [pyIn, Bool.or_eq_true_iff, leadsList_iff, ih, List.infix_cons_iff]

/-- C9: `find_records_by_name` returns exactly the records whose name has
the query as a case-insensitive substring, as the filter of the book's
records in dict order (so an empty list, not an error, when nothing
matches); `find_records_by_phone` does the same with a case-sensitive
substring test against each record's rendered phones. -/
theorem claim_C9_find_records (b : AddressBook) (q : PyStr) :
    find_records_by_name b q
        = (b.data.map Prod.snd).filter
            (fun r => decide (pyLower q <:+: pyLower r.name.value))
      ∧ find_records_by_phone b q
        = (b.data.map Prod.snd).filter
            (fun r => decide (∃ p ∈ r.phones, q <:+: pyStrOf p.value))
      ∧ ((∀ r ∈ b.data.map Prod.snd, ¬ pyLower q <:+: pyLower r.name.value) →
          find_records_by_name b q = [])
      ∧ ((∀ r ∈ b.data.map Prod.snd, ∀ p ∈ r.phones, ¬ q <:+: pyStrOf p.value) →
          find_records_by_phone b q = []) := by
  have hname : find_records_by_name b q
      = (b.data.map Prod.snd).filter
          (fun r => decide (pyLower q <:+: pyLower r.name.value)) := by
    refine List.filter_congr (fun r _ => ?_)
    rw [Bool.eq_iff_iff, pyIn_iff, decide_eq_true_iff]
  have hphone : find_records_by_phone b q
      = (b.data.map Prod.snd).filter
          (fun r => decide (∃ p ∈ r.phones, q <:+: pyStrOf p.value)) := by
    refine List.filter_congr (fun r _ => ?_)
    rw [Bool.eq_iff_iff, List.any_eq_true, decide_eq_true_iff]
    constructor
    · rintro ⟨p, hp, hin⟩
      exact ⟨p, hp, (pyIn_iff _ _).mp hin⟩
    · rintro ⟨p, hp, hin⟩
      exact ⟨p, hp, (pyIn_iff _ _).mpr hin⟩
  refine ⟨hname, hphone, fun hnone => ?_, fun hnone => ?_⟩
  · rw [hname, List.filter_eq_nil_iff]
    intro r hr
    simpa using hnone r hr
  · rw [hphone, List.filter_eq_nil_iff]
    intro r hr
    simpa using hnone r hr

/-- A one-record book ("Alice") used as concrete witness input. -/
def aliceBook : AddressBook :=
  add_record ⟨[]⟩ (mkRecord "Alice".toList (.str "5551234567".toList) .none)

/-- Witness for C9 at concrete inputs: queries matching nothing return the
empty list for both searches on the Alice book. -/
theorem claim_C9_witness :
    find_records_by_name aliceBook "zz".toList = []
      ∧ find_records_by_phone aliceBook "9999999999".toList = [] := by
  exact ⟨(claim_C9_find_records aliceBook "zz".toList).2.2.1 (by decide),
    (claim_C9_find_records aliceBook "9999999999".toList).2.2.2 (by decide)⟩

/-- When the new phone passes validation, the edit loop replaces every
matching entry and raises nothing. -/
theorem editGo_ok (ps : List Field) (old new : PyStr)
    (h : phoneValidate (.str new) = .ok ()) :
    editGo ps old new
      = (ps.map (fun p => if pyStrOf p.value == old then (⟨.str new⟩ : Field) else p),
         Option.none) := by
  induction ps with
  | nil => rfl
  | cons p rest ih =>
      by_cases hp : (pyStrOf p.value == old) = true
      · simp [editGo, hp, set_value, h, ih, beq_iff_eq.mp hp]
      · have hne : pyStrOf p.value ≠ old := by simpa using hp
        simp [editGo, hp, ih, hne]

/-- When the new phone fails validation and some entry matches, the edit
loop raises at the first match, before any assignment, so the list is
returned unchanged alongside the error. -/
theorem editGo_error (ps : List Field) (old new : PyStr) (e : PyErr)
    (h : phoneValidate (.str new) = .error e)
    (hm : ∃ p ∈ ps, pyStrOf p.value = old) :
    editGo ps old new = (ps, some e) := by
  induction ps with
  | nil => simp at hm
  | cons p rest ih =>
      by_cases hp : (pyStrOf p.value == old) = true
      · simp [editGo, hp, set_value, h]
      · obtain ⟨q, hq, hqeq⟩ := hm
        rcases List.mem_cons.mp hq with rfl | hq'
        · exact absurd (beq_iff_eq.mpr hqeq) hp
        · simp [editGo, hp, ih ⟨q, hq', hqeq⟩]

/-- When no entry matches, the edit loop does nothing and raises nothing
(even if the new phone is malformed, since validation is never reached). -/
theorem editGo_nomatch (ps : List Field) (old new : PyStr)
    (hm : ∀ p ∈ ps, pyStrOf p.value ≠ old) :
    editGo ps old new = (ps, Option.none) := by
  induction ps with
  | nil => rfl
  | cons p rest ih =>
      have hp : ¬(pyStrOf p.value == old) = true := by
        simpa using hm p (List.mem_cons_self p rest)
      simp [editGo, hp, ih (fun q hq => hm q (List.mem_cons_of_mem p hq))]

/-- C6: `edit_phone old new` replaces every entry rendering equal to `old`
with a revalidated `new` when `new` is well-formed; when `new` is
malformed and some entry matches, it raises the `ValueError` with all
entries (matching ones included) unchanged, because validation runs before
any mutation; when no entry matches it is a silent no-op. -/
theorem claim_C6_edit_phone (r : Record) (old new : PyStr) :
    (phoneValidate (.str new) = .ok () →
        edit_phone r old new
          = ({ r with phones := (r.phones.map
                (fun p => if pyStrOf p.value == old then (⟨.str new⟩ : Field) else p)) },
             Option.none))
      ∧ (∀ e, phoneValidate (.str new) = .error e →
          (∃ p ∈ r.phones, pyStrOf p.value = old) →
          edit_phone r old new = (r, some e))
      ∧ ((∀ p ∈ r.phones, pyStrOf p.value ≠ old) →
          edit_phone r old new = (r, Option.none)) := by
  refine ⟨fun h => ?_, fun e h hm => ?_, fun hm => ?_⟩
  · rw [edit_phone, editGo_ok r.phones old new h]
  · rw [edit_phone, editGo_error r.phones old new e h hm]
  · rw [edit_phone, editGo_nomatch r.phones old new hm]

/-- The record the C6 witness edits: one phone, 1234567890. -/
def editRec : Record := mkRecord "Ed".toList (.str "1234567890".toList) .none

/-- Witness for C6 at concrete inputs: a valid replacement goes through, a
malformed one raises with the record unchanged, a query matching nothing
is a no-op. -/
theorem claim_C6_witness :
    edit_phone editRec "1234567890".toList "0987654321".toList
        = ({ editRec with phones := (editRec.phones.map
              (fun p => if pyStrOf p.value == "1234567890".toList
                then (⟨.str "0987654321".toList⟩ : Field) else p)) },
           Option.none)
      ∧ edit_phone editRec "1234567890".toList "123".toList
        = (editRec, some (.valueError "Phone must be 10 digits long"))
      ∧ edit_phone editRec "5550000000".toList "123".toList = (editRec, Option.none) :=
  ⟨(claim_C6_edit_phone editRec "1234567890".toList "0987654321".toList).1 rfl,
   (claim_C6_edit_phone editRec "1234567890".toList "123".toList).2.1 _ rfl (by decide),
   (claim_C6_edit_phone editRec "5550000000".toList "123".toList).2.2 (by decide)⟩

/-- `filterMap` only depends on the function's values on the list. -/
theorem filterMap_congr_mem {α β : Type} {f g : α → Option β} :
    ∀ {l : List α}, (∀ a ∈ l, f a = g a) → l.filterMap f = l.filterMap g
  | [], _ => rfl
  | a :: l, h => by
      rw [List.filterMap_cons, List.filterMap_cons, h a (List.mem_cons_self a l),
        filterMap_congr_mem (fun x hx => h x (List.mem_cons_of_mem a hx))]

/-- `filterMap` of an everywhere-`some` function keeps the list's length. -/
theorem length_filterMap_allSome {α β : Type} {f : α → Option β} :
    ∀ {l : List α}, (∀ a ∈ l, (f a).isSome) → (l.filterMap f).length = l.length
  | [], _ => rfl
  | a :: l, h => by
      obtain ⟨b, hb⟩ := Option.isSome_iff_exists.mp (h a (List.mem_cons_self a l))
      rw [List.filterMap_cons, hb, List.length_cons, List.length_cons,
        length_filterMap_allSome (fun x hx => h x (List.mem_cons_of_mem a hx))]

/-- Looking up any key of the dict succeeds. -/
theorem dictGet_isSome_of_mem (d : List (PyStr × Record)) (k : PyStr)
    (h : k ∈ d.map Prod.fst) : (dictGet d k).isSome := by
  induction d with
  | nil => simp at h
  | cons kv rest ih =>
      by_cases hk : (kv.1 == k) = true
      · simp [dictGet, hk]
      · rw [List.map_cons, List.mem_cons] at h
        rcases h with h1 | h2
        · exact absurd (beq_iff_eq.mpr h1.symm) hk
        · simp only [dictGet]
          rw [if_neg hk]
          exact ih h2

/-- Looking the dict's own keys up in order returns its values in order
(keys are unique in a Python dict). -/
theorem filterMap_dictGet_keys (d : List (PyStr × Record))
    (hnd : (d.map Prod.fst).Nodup) :
    (d.map Prod.fst).filterMap (dictGet d) = d.map Prod.snd := by
  induction d with
  | nil => rfl
  | cons kv rest ih =>
      rw [List.map_cons, List.nodup_cons] at hnd
      rw [List.map_cons, List.filterMap_cons]
      have hhead : dictGet (kv :: rest) kv.1 = some kv.2 := by
        simp only [dictGet]
        rw [if_pos (beq_iff_eq.mpr rfl)]
      rw [hhead, List.map_cons]
      have htail : (rest.map Prod.fst).filterMap (dictGet (kv :: rest))
          = (rest.map Prod.fst).filterMap (dictGet rest) := by
        refine filterMap_congr_mem (fun x hx => ?_)
        have hne : ¬(kv.1 == x) = true := by
          rw [beq_iff_eq]
          exact fun hcontra => hnd.1 (hcontra ▸ hx)
        simp only [dictGet]
        rw [if_neg hne]
      rw [htail, ih hnd.2]

/-- The page list flattens to the records of the remaining keys, in
order. -/
theorem runPages_flatten (b : AddressBook) (it : BookIter) :
    (runPages b it).flatten = (it.keys.drop it.index).filterMap (dictGet b.data) := by
  induction it using runPages.induct b with
  | case1 it h ih =>
      rw [runPages, dif_pos h, List.flatten_cons, ih, pageAt, ← List.filterMap_append]
      congr 1
      have hdd : it.keys.drop (it.index + 5) = (it.keys.drop it.index).drop 5 := by
        rw [List.drop_drop, Nat.add_comm]
      rw [hdd]
      exact List.take_append_drop 5 _
  | case2 it h =>
      rw [runPages, dif_neg h, List.flatten_nil,
        List.drop_eq_nil_of_le (by omega), List.filterMap_nil]

/-- Every key of the snapshot resolving in the dict, a page's length is
`min 5` of the keys left. -/
theorem length_pageAt (b : AddressBook) (it : BookIter)
    (hks : ∀ k ∈ it.keys, (dictGet b.data k).isSome) :
    (pageAt b it).length = min 5 (it.keys.length - it.index) := by
  rw [pageAt, length_filterMap_allSome, List.length_take, List.length_drop]
  intro k hk
  refine hks k (List.Sublist.mem hk ?_)
  exact ((it.keys.drop it.index).take_sublist 5).trans (it.keys.drop_sublist it.index)

/-- Every page a run produces is non-empty and holds at most 5 records. -/
theorem runPages_page_length (b : AddressBook) (it : BookIter)
    (hks : ∀ k ∈ it.keys, (dictGet b.data k).isSome) :
    ∀ p ∈ runPages b it, 0 < p.length ∧ p.length ≤ 5 := by
  induction it using runPages.induct b with
  | case1 it h ih =>
      intro p hp
      rw [runPages, dif_pos h, List.mem_cons] at hp
      rcases hp with rfl | hp'
      · rw [length_pageAt b it hks]
        omega
      · exact ih hks p hp'
  | case2 it h =>
      intro p hp
      rw [runPages, dif_neg h] at hp
      simp at hp

/-- The page sizes a run of `__next__` produces over `n` remaining keys:
`min 5 n` at a time. -/
def chunkLens (n : Nat) : List Nat :=
  if n = 0 then [] else min 5 n :: chunkLens (n - 5)
termination_by n
decreasing_by simp_wf; omega

/-- The lengths of the pages are `chunkLens` of the number of keys left. -/
theorem runPages_lengths (b : AddressBook) (it : BookIter)
    (hks : ∀ k ∈ it.keys, (dictGet b.data k).isSome) :
    (runPages b it).map List.length = chunkLens (it.keys.length - it.index) := by
  induction it using runPages.induct b with
  | case1 it h ih =>
      rw [runPages, dif_pos h, List.map_cons, ih hks, length_pageAt b it hks]
      have harg : it.keys.length - (it.index + 5) = it.keys.length - it.index - 5 := by
        omega
      rw [harg]
      conv_rhs => rw [chunkLens]
      rw [if_neg (by omega)]
  | case2 it h =>
      rw [runPages, dif_neg h, List.map_nil, chunkLens, if_pos (by omega)]

/-- 12 keys paginate as sizes 5, 5, 2. -/
theorem chunkLens_twelve : chunkLens 12 = [5, 5, 2] := by
  rw [chunkLens, if_neg (by omega)]
  norm_num
  rw [chunkLens, if_neg (by omega)]
  norm_num
  rw [chunkLens, if_neg (by omega)]
  norm_num
  rw [chunkLens, if_pos rfl]

/-- C5: a full pagination of a book (whose dict keys are unique, as Python
dicts guarantee) flattens to every record exactly once in key order; every
page has between 1 and 5 records; 12 records paginate as sizes [5, 5, 2];
and calling `__iter__` again ignores any partially-consumed prior
iteration state and starts fresh. -/
theorem claim_C5_pagination (b : AddressBook) (hnd : (b.data.map Prod.fst).Nodup) :
    (runPages b (iterStart b)).flatten = b.data.map Prod.snd
      ∧ (∀ p ∈ runPages b (iterStart b), 0 < p.length ∧ p.length ≤ 5)
      ∧ (b.data.length = 12 → (runPages b (iterStart b)).map List.length = [5, 5, 2])
      ∧ (∀ prior : BookIter, runPages b (iterAgain b prior) = runPages b (iterStart b)) := by
  have hks : ∀ k ∈ (iterStart b).keys, (dictGet b.data k).isSome :=
    fun k hk => dictGet_isSome_of_mem b.data k hk
  refine ⟨?_, runPages_page_length b (iterStart b) hks, fun h12 => ?_, fun _ => rfl⟩
  · rw [runPages_flatten, iterStart, List.drop_zero]
    exact filterMap_dictGet_keys b.data hnd
  · rw [runPages_lengths b (iterStart b) hks]
    have : (iterStart b).keys.length - (iterStart b).index = 12 := by
      simp [iterStart, h12]
    rw [this, chunkLens_twelve]

/-- A concrete 12-record book (names n01 .. n12) for the C5 witness. -/
def twelveBook : AddressBook :=
  ⟨(List.range 12).map (fun i =>
    (('n' :: natDigits (i + 1)), mkRecord ('n' :: natDigits (i + 1)) .none .none))⟩

/-- Witness for C5 at a concrete input: the 12-record book paginates with
page sizes [5, 5, 2]. -/
theorem claim_C5_witness :
    (runPages twelveBook (iterStart twelveBook)).map List.length = [5, 5, 2] := by
  exact (claim_C5_pagination twelveBook (by decide)).2.2.1 (by decide)

end Bot4
